import Mathlib

/-!
Shallow embedding of `memory_lib` (src/rust/memory_lib/src/lib.rs and
span_example.rs): a heap of manually managed allocations, a raw layer of
unchecked operations, and the `SafeBuffer` safety-discharging wrapper.

Conventions of the embedding:
- `usize` is `Nat`; arithmetic that the source performs with saturating
  operations is modelled with an explicit `min` against `USIZE_MAX`.
- `i32` element values are `Int` (the library only stores and returns
  them; it performs no arithmetic on element values).
- Fallible or partial behaviour is an `Option`: a result of `none` at the
  outer layer means the Rust code either panicked (a failed `assert!` or
  `expect`) or exercised undefined behaviour (an unchecked raw operation
  called outside its contract). A normal return is `some`.
- The heap is explicit: an allocation counter plus an association list
  from addresses to element contents. Raw-layer functions take and return
  the heap.
-/

/-- The value of `isize::MAX` on a 64-bit target; `Layout::array::<i32>(count)` fails
(and the source's `expect` panics) exactly when `4 * count` exceeds it. -/
def ISIZE_MAX : Nat := 2 ^ 63 - 1

/-- The value of `usize::MAX` on a 64-bit target, the saturation bound of
`usize::saturating_add`. -/
def USIZE_MAX : Nat := 2 ^ 64 - 1

/-- Saturating addition on `usize` (`usize::saturating_add`). -/
def satAdd (a b : Nat) : Nat := min (a + b) USIZE_MAX

/-- First-occurrence lookup in the block list of a heap. -/
def blocksGet : List (Nat × List Int) → Nat → Option (List Int)
  | [], _ => none
  | (a, c) :: rest, a' => if a' = a then some c else blocksGet rest a'

/-- Replace the contents of the first block with the given address. -/
def blocksSet : List (Nat × List Int) → Nat → List Int → List (Nat × List Int)
  | [], _, _ => []
  | (a, c) :: rest, a', c' =>
    if a' = a then (a, c') :: rest else (a, c) :: blocksSet rest a' c'

/-- Remove the first block with the given address. -/
def blocksRemove : List (Nat × List Int) → Nat → List (Nat × List Int)
  | [], _ => []
  | (a, c) :: rest, a' => if a' = a then rest else (a, c) :: blocksRemove rest a'

/-- The mutable store: a fresh-address counter and the live allocations. -/
structure Heap where
  next : Nat
  blocks : List (Nat × List Int)
deriving DecidableEq

/-- The heap before any allocation. -/
def Heap.empty : Heap := ⟨0, []⟩

/-- Contents of the live allocation at `a`, if any. -/
def Heap.lookup (h : Heap) (a : Nat) : Option (List Int) :=
  blocksGet h.blocks a

/-- Overwrite the contents of the live allocation at `a` (no effect if dead). -/
def Heap.update (h : Heap) (a : Nat) (c : List Int) : Heap :=
  ⟨h.next, blocksSet h.blocks a c⟩

/-- Heap well-formedness: every live address is below the fresh counter and
addresses are pairwise distinct. Every heap reachable from `Heap.empty`
satisfies this. -/
def Heap.WF (h : Heap) : Prop :=
  (∀ k ∈ h.blocks.map Prod.fst, k < h.next) ∧ (h.blocks.map Prod.fst).Nodup

/-- Translation of `raw_alloc` (lib.rs:22). `uninit` supplies the
unspecified contents of the freshly allocated, uninitialized region; the
theorems quantify over it. `none` models the `expect` panic on an invalid
layout (`4 * count > isize::MAX`). Out-of-memory is not modelled: the
abstract heap never exhausts. -/
def raw_alloc (uninit : Nat → Int) (h : Heap) (count : Nat) :
    Option (Nat × Heap) :=
  if 4 * count > ISIZE_MAX then none
  else some (h.next, ⟨h.next + 1, (h.next, (List.range count).map uninit) :: h.blocks⟩)

/-- Translation of `raw_dealloc` (lib.rs:32). Freeing a dead address, or
with a `count` different from the one used at allocation, is undefined
behaviour in the source contract: modelled as `none`. -/
def raw_dealloc (h : Heap) (a : Nat) (count : Nat) : Option Heap :=
  if 4 * count > ISIZE_MAX then none
  else match h.lookup a with
    | none => none
    | some c =>
      if c.length = count then some ⟨h.next, blocksRemove h.blocks a⟩ else none

/-- Translation of `unsafe_read` (lib.rs:100): `*ptr.add(offset)`. Reading
a dead address or past the allocation is undefined behaviour (`none`). -/
def unchecked_read (h : Heap) (a : Nat) (offset : Nat) : Option Int :=
  match h.lookup a with
  | none => none
  | some c => c.get? offset

/-- Translation of `unsafe_write` (lib.rs:105): `*ptr.add(offset) = value`.
Writing to a dead address or past the allocation is undefined behaviour
(`none`). -/
def unchecked_write (h : Heap) (a : Nat) (offset : Nat) (v : Int) : Option Heap :=
  match h.lookup a with
  | none => none
  | some c => if offset < c.length then some (h.update a (c.set offset v)) else none

/-- The zero-initialization loop `for i in 0..count { ptr.add(i).write(0) }`
shared by `mid_level_alloc_zeroed` (lib.rs:61) and `unsafe_alloc`
(lib.rs:88). -/
def zeroFill (a : Nat) (count : Nat) (h : Heap) : Option Heap :=
  (List.range count).foldlM (fun hh i => unchecked_write hh a i 0) h

/-- Translation of `mid_level_alloc_zeroed` (lib.rs:54): asserts
`count > 0` (panic modelled as `none`), raw-allocates, then zeroes every
element. -/
def mid_level_alloc_zeroed (uninit : Nat → Int) (h : Heap) (count : Nat) :
    Option (Nat × Heap) :=
  if count = 0 then none
  else match raw_alloc uninit h count with
    | none => none
    | some (a, h1) => (zeroFill a count h1).map (fun h2 => (a, h2))

/-- Translation of the public `unsafe_alloc` (lib.rs:83): raw-allocates and
zeroes every element; no positivity assertion of its own. -/
def unchecked_alloc (uninit : Nat → Int) (h : Heap) (count : Nat) :
    Option (Nat × Heap) :=
  match raw_alloc uninit h count with
  | none => none
  | some (a, h1) => (zeroFill a count h1).map (fun h2 => (a, h2))

/-- Translation of the public `unsafe_free` (lib.rs:95). -/
def unchecked_free (h : Heap) (a : Nat) (count : Nat) : Option Heap :=
  raw_dealloc h a count

/-- Translation of `SafeBuffer` (lib.rs:127): an owned address and the
element count recorded at construction. -/
structure SafeBuffer where
  ptr : Nat
  len : Nat
deriving DecidableEq

/-- The documented safety invariant of `SafeBuffer` (lib.rs:120-126):
`ptr` points to a live allocation whose size is exactly `len` elements. -/
def SafeBuffer.Valid (h : Heap) (b : SafeBuffer) : Prop :=
  ∃ c, h.lookup b.ptr = some c ∧ c.length = b.len

/-- Translation of `SafeBuffer::new` (lib.rs:140): asserts `len > 0`
(panic is `none`), then allocates zeroed memory. -/
def SafeBuffer.new (uninit : Nat → Int) (h : Heap) (len : Nat) :
    Option (SafeBuffer × Heap) :=
  if len = 0 then none
  else (mid_level_alloc_zeroed uninit h len).map (fun p => (⟨p.1, len⟩, p.2))

/-- Translation of `SafeBuffer::get` (lib.rs:163). Outer `Option`: `none`
is a panic or undefined behaviour; inner `Option` is the source's return
value (`None` for an out-of-range index). -/
def SafeBuffer.get (h : Heap) (b : SafeBuffer) (index : Nat) : Option (Option Int) :=
  if index ≥ b.len then some none
  else (unchecked_read h b.ptr index).map (fun v => some v)

/-- Translation of `SafeBuffer::set` (lib.rs:178). Outer `Option` as in
`get`; the normal return is the source's `Result` paired with the heap
after the call. -/
def SafeBuffer.set (h : Heap) (b : SafeBuffer) (index : Nat) (v : Int) :
    Option (Except String Unit × Heap) :=
  if index ≥ b.len then some (Except.error "Index out of bounds", h)
  else (unchecked_write h b.ptr index v).map (fun h' => (Except.ok (), h'))

/-- The element sequence seen through a slice `[start, start + count)`
produced by `from_raw_parts(ptr.add(start), count)`: element `j` of the
view is the memory element at offset `start + j`. Any access outside the
live allocation is undefined behaviour (`none`). -/
def readRange (h : Heap) (a : Nat) (start : Nat) : Nat → Option (List Int)
  | 0 => some []
  | n + 1 => do
      let v ← unchecked_read h a start
      let rest ← readRange h a (start + 1) n
      pure (v :: rest)

/-- Translation of `SafeBuffer::get_slice` (lib.rs:222): rejects the range
when `start.saturating_add(count) > len`, otherwise returns the view over
`[start, start + count)`. -/
def SafeBuffer.get_slice (h : Heap) (b : SafeBuffer) (start count : Nat) :
    Option (Option (List Int)) :=
  if satAdd start count > b.len then some none
  else (readRange h b.ptr start count).map (fun l => some l)

/-- Translation of `impl Drop for SafeBuffer` (lib.rs:231-236):
`unsafe_free(self.ptr, self.len)`. -/
def SafeBuffer.drop (h : Heap) (b : SafeBuffer) : Option Heap :=
  unchecked_free h b.ptr b.len

/-- The operations a caller can perform on a live `SafeBuffer` through the
safe public API (the heap-relevant ones). -/
inductive BufOp where
  | get (index : Nat)
  | set (index : Nat) (value : Int)
  | get_slice (start count : Nat)

/-- Effect of one safe API call on the heap. -/
def SafeBuffer.step (h : Heap) (b : SafeBuffer) : BufOp → Option Heap
  | .get i => (b.get h i).map (fun _ => h)
  | .set i v => (b.set h i v).map Prod.snd
  | .get_slice s c => (b.get_slice h s c).map (fun _ => h)

/-- Run a sequence of safe API calls. -/
def SafeBuffer.run (h : Heap) (b : SafeBuffer) : List BufOp → Option Heap
  | [] => some h
  | op :: ops => match b.step h op with
    | none => none
    | some h' => b.run h' ops

/-- Translation of `DataContainer` (span_example.rs:309): a growable vector
of `i32`. -/
structure DataContainer where
  data : List Int

/-- Translation of `DataContainer::len` (span_example.rs:318). -/
def DataContainer.len (c : DataContainer) : Nat := c.data.length

/-- Translation of `DataContainer::first_half` (span_example.rs:342):
`&self.data[..mid]` with `mid = len / 2`. -/
def DataContainer.first_half (c : DataContainer) : List Int :=
  c.data.take (c.data.length / 2)

/-- Translation of `DataContainer::last_half` (span_example.rs:350):
`&self.data[mid..]` with `mid = len / 2`. -/
def DataContainer.last_half (c : DataContainer) : List Int :=
  c.data.drop (c.data.length / 2)

/-! ### Lemmas about the block association list -/

theorem blocksGet_set_self (l : List (Nat × List Int)) (a : Nat) (c c0 : List Int)
    (h : blocksGet l a = some c0) : blocksGet (blocksSet l a c) a = some c := by
  induction l with
  | nil => simp [blocksGet] at h
  | cons p rest ih =>
    obtain ⟨a1, c1⟩ := p
    by_cases ha : a = a1
    · simp [blocksGet, blocksSet, ha]
    · simp only [blocksGet, blocksSet, if_neg ha] at h ⊢
      exact ih h

theorem blocksGet_set_ne (l : List (Nat × List Int)) (a a' : Nat) (c : List Int)
    (ha : a' ≠ a) : blocksGet (blocksSet l a c) a' = blocksGet l a' := by
  induction l with
  | nil => simp [blocksGet, blocksSet]
  | cons p rest ih =>
    obtain ⟨a1, c1⟩ := p
    by_cases h1 : a = a1
    · subst h1
      simp [blocksGet, blocksSet, if_neg ha]
    · by_cases h2 : a' = a1
      · simp [blocksGet, blocksSet, if_neg h1, h2]
      · simp only [blocksGet, blocksSet, if_neg h1, if_neg h2]
        exact ih

theorem blocksSet_map_fst (l : List (Nat × List Int)) (a : Nat) (c : List Int) :
    (blocksSet l a c).map Prod.fst = l.map Prod.fst := by
  induction l with
  | nil => simp [blocksSet]
  | cons p rest ih =>
    obtain ⟨a1, c1⟩ := p
    by_cases h1 : a = a1
    · simp [blocksSet, h1]
    · simp only [blocksSet, if_neg h1, List.map_cons]
      rw [ih]

theorem blocksGet_of_not_mem (l : List (Nat × List Int)) (a : Nat)
    (h : a ∉ l.map Prod.fst) : blocksGet l a = none := by
  induction l with
  | nil => simp [blocksGet]
  | cons p rest ih =>
    obtain ⟨a1, c1⟩ := p
    simp only [List.map_cons, List.mem_cons] at h
    push_neg at h
    simp only [blocksGet, if_neg h.1]
    exact ih h.2

theorem blocksGet_remove_self (l : List (Nat × List Int)) (a : Nat)
    (hn : (l.map Prod.fst).Nodup) : blocksGet (blocksRemove l a) a = none := by
  induction l with
  | nil => simp [blocksRemove, blocksGet]
  | cons p rest ih =>
    obtain ⟨a1, c1⟩ := p
    simp only [List.map_cons, List.nodup_cons] at hn
    by_cases h1 : a = a1
    · subst h1
      simp only [blocksRemove, if_pos rfl]
      exact blocksGet_of_not_mem rest a hn.1
    · simp only [blocksRemove, if_neg h1, blocksGet, if_neg h1]
      exact ih hn.2

theorem blocksRemove_sublist (l : List (Nat × List Int)) (a : Nat) :
    (blocksRemove l a).Sublist l := by
  induction l with
  | nil => simp [blocksRemove]
  | cons p rest ih =>
    obtain ⟨a1, c1⟩ := p
    by_cases h1 : a = a1
    · simp only [blocksRemove, if_pos h1]
      exact List.sublist_cons_self _ _
    · simp only [blocksRemove, if_neg h1]
      exact ih.cons₂ _

/-! ### Lemmas about heap operations -/

theorem Heap.lookup_update_self (h : Heap) (a : Nat) (c c0 : List Int)
    (hc : h.lookup a = some c0) : (h.update a c).lookup a = some c :=
  blocksGet_set_self h.blocks a c c0 hc

theorem Heap.lookup_update_ne (h : Heap) (a a' : Nat) (c : List Int)
    (ha : a' ≠ a) : (h.update a c).lookup a' = h.lookup a' :=
  blocksGet_set_ne h.blocks a a' c ha

theorem unchecked_write_spec (h : Heap) (a : Nat) (off : Nat) (v : Int)
    (c : List Int) (hc : h.lookup a = some c) (hoff : off < c.length) :
    unchecked_write h a off v = some (h.update a (c.set off v)) := by
  simp [unchecked_write, hc, hoff]

theorem unchecked_read_spec (h : Heap) (a : Nat) (off : Nat)
    (c : List Int) (hc : h.lookup a = some c) (hoff : off < c.length) :
    unchecked_read h a off = some (c.get ⟨off, hoff⟩) := by
  simp [unchecked_read, hc, List.get?_eq_get hoff]

theorem unchecked_read_dead (h : Heap) (a : Nat) (off : Nat)
    (hc : h.lookup a = none) : unchecked_read h a off = none := by
  simp [unchecked_read, hc]

/-! ### The zero-initialization loop -/

theorem replicate_get? (n i : Nat) (a : Int) :
    (List.replicate n a).get? i = if i < n then some a else none := by
  rw [List.get?_eq_getElem?]
  rcases Nat.lt_or_ge i n with h | h
  · rw [if_pos h, List.getElem?_replicate, if_pos h]
  · rw [if_neg (Nat.not_lt.mpr h), List.getElem?_eq_none]
    simpa using h

theorem zeroFill_succ (a : Nat) (count : Nat) (h : Heap) :
    zeroFill a (count + 1) h =
      (zeroFill a count h).bind (fun h1 => unchecked_write h1 a count 0) := by
  unfold zeroFill
  rw [List.range_succ, List.foldlM_append]
  simp only [List.foldlM_cons, List.foldlM_nil]
  cases hz : (List.range count).foldlM (fun hh i => unchecked_write hh a i 0) h with
  | none => rfl
  | some h1 => simp

theorem zeroFill_spec (a : Nat) (h : Heap) (c : List Int)
    (hc : h.lookup a = some c) :
    ∀ count, count ≤ c.length →
    ∃ h' c', zeroFill a count h = some h' ∧
      h'.lookup a = some c' ∧
      c'.length = c.length ∧
      (∀ i, c'.get? i = if i < count then some 0 else c.get? i) ∧
      h'.next = h.next ∧
      h'.blocks.map Prod.fst = h.blocks.map Prod.fst ∧
      (∀ a', a' ≠ a → h'.lookup a' = h.lookup a') := by
  intro count
  induction count with
  | zero =>
    intro _
    exact ⟨h, c, rfl, hc, rfl, fun i => by simp, rfl, rfl, fun _ _ => rfl⟩
  | succ n ih =>
    intro hle
    obtain ⟨h1, c1, hz, hl1, hlen1, hget1, hnext1, hfst1, hother1⟩ :=
      ih (Nat.le_of_succ_le hle)
    have hn : n < c1.length := by omega
    have hw : unchecked_write h1 a n 0 = some (h1.update a (c1.set n 0)) :=
      unchecked_write_spec h1 a n 0 c1 hl1 hn
    refine ⟨h1.update a (c1.set n 0), c1.set n 0, ?_, ?_, ?_, ?_, ?_, ?_, ?_⟩
    · rw [zeroFill_succ, hz]
      exact hw
    · exact Heap.lookup_update_self h1 a _ c1 hl1
    · rw [List.length_set]; exact hlen1
    · intro i
      by_cases hi : i = n
      · subst hi
        rw [List.get?_set_eq_of_lt 0 hn, if_pos (by omega)]
      · rw [List.get?_set_ne 0 c1 (fun hh => hi hh.symm), hget1 i]
        by_cases hi2 : i < n
        · rw [if_pos hi2, if_pos (by omega)]
        · rw [if_neg hi2, if_neg (by omega)]
    · exact hnext1
    · simpa [Heap.update, blocksSet_map_fst] using hfst1
    · intro a' ha'
      rw [Heap.lookup_update_ne h1 a a' _ ha']
      exact hother1 a' ha'

/-! ### Allocation specs -/

theorem raw_alloc_spec (uninit : Nat → Int) (h : Heap) (count : Nat)
    (hl : 4 * count ≤ ISIZE_MAX) :
    raw_alloc uninit h count =
      some (h.next, ⟨h.next + 1, (h.next, (List.range count).map uninit) :: h.blocks⟩) := by
  simp [raw_alloc, Nat.not_lt.mpr hl]

theorem mid_level_alloc_zeroed_spec (uninit : Nat → Int) (h : Heap) (count : Nat)
    (h0 : count ≠ 0) (hl : 4 * count ≤ ISIZE_MAX) :
    ∃ h', mid_level_alloc_zeroed uninit h count = some (h.next, h') ∧
      h'.lookup h.next = some (List.replicate count 0) ∧
      h'.next = h.next + 1 ∧
      h'.blocks.map Prod.fst = h.next :: h.blocks.map Prod.fst ∧
      (∀ a', a' ≠ h.next → h'.lookup a' = h.lookup a') := by
  set h1 : Heap := ⟨h.next + 1, (h.next, (List.range count).map uninit) :: h.blocks⟩ with hh1
  have hlk : h1.lookup h.next = some ((List.range count).map uninit) := by
    simp [Heap.lookup, blocksGet, hh1]
  have hclen : ((List.range count).map uninit).length = count := by simp
  obtain ⟨h2, c2, hz, hl2, hlen2, hget2, hnext2, hfst2, hother2⟩ :=
    zeroFill_spec h.next h1 _ hlk count (le_of_eq hclen.symm)
  refine ⟨h2, ?_, ?_, ?_, ?_, ?_⟩
  · simp only [mid_level_alloc_zeroed, if_neg h0, raw_alloc_spec uninit h count hl, ← hh1, hz]
    rfl
  · rw [hl2]
    congr 1
    apply List.ext_get?
    intro i
    rw [hget2 i, replicate_get?]
    by_cases hi : i < count
    · rw [if_pos hi, if_pos hi]
    · rw [if_neg hi, if_neg hi, List.get?_eq_none.mpr]
      simpa using hi
  · rw [hnext2, hh1]
  · rw [hfst2, hh1]
    simp
  · intro a' ha'
    rw [hother2 a' ha', hh1]
    simp [Heap.lookup, blocksGet, if_neg ha']

theorem unchecked_alloc_spec (uninit : Nat → Int) (h : Heap) (count : Nat)
    (hl : 4 * count ≤ ISIZE_MAX) :
    ∃ h', unchecked_alloc uninit h count = some (h.next, h') ∧
      h'.lookup h.next = some (List.replicate count 0) ∧
      h'.next = h.next + 1 ∧
      (∀ a', a' ≠ h.next → h'.lookup a' = h.lookup a') := by
  set h1 : Heap := ⟨h.next + 1, (h.next, (List.range count).map uninit) :: h.blocks⟩ with hh1
  have hlk : h1.lookup h.next = some ((List.range count).map uninit) := by
    simp [Heap.lookup, blocksGet, hh1]
  have hclen : ((List.range count).map uninit).length = count := by simp
  obtain ⟨h2, c2, hz, hl2, hlen2, hget2, hnext2, hfst2, hother2⟩ :=
    zeroFill_spec h.next h1 _ hlk count (le_of_eq hclen.symm)
  refine ⟨h2, ?_, ?_, ?_, ?_⟩
  · simp only [unchecked_alloc, raw_alloc_spec uninit h count hl, ← hh1, hz]
    rfl
  · rw [hl2]
    congr 1
    apply List.ext_get?
    intro i
    rw [hget2 i, replicate_get?]
    by_cases hi : i < count
    · rw [if_pos hi, if_pos hi]
    · rw [if_neg hi, if_neg hi, List.get?_eq_none.mpr]
      simpa using hi
  · rw [hnext2, hh1]
  · intro a' ha'
    rw [hother2 a' ha', hh1]
    simp [Heap.lookup, blocksGet, if_neg ha']

/-! ### Reading a slice range -/

theorem readRange_spec (h : Heap) (a : Nat) (c : List Int)
    (hc : h.lookup a = some c) :
    ∀ count start, start + count ≤ c.length →
    ∃ l, readRange h a start count = some l ∧ l.length = count ∧
      ∀ j, l.get? j = if j < count then c.get? (start + j) else none := by
  intro count
  induction count with
  | zero =>
    intro start _
    exact ⟨[], rfl, rfl, fun j => by simp⟩
  | succ n ih =>
    intro start hle
    have hstart : start < c.length := by omega
    obtain ⟨rest, hrest, hlenr, hgetr⟩ := ih (start + 1) (by omega)
    have hr := unchecked_read_spec h a start c hc hstart
    refine ⟨c.get ⟨start, hstart⟩ :: rest, ?_, by simp [hlenr], ?_⟩
    · show (do
        let v ← unchecked_read h a start
        let rest ← readRange h a (start + 1) n
        pure (v :: rest)) = _
      rw [hr, hrest]
      rfl
    · intro j
      cases j with
      | zero =>
        simp only [List.get?_cons_zero, if_pos (Nat.succ_pos n), Nat.add_zero]
        rw [List.get?_eq_get hstart]
      | succ j' =>
        simp only [List.get?_cons_succ]
        rw [hgetr j']
        by_cases hj : j' < n
        · rw [if_pos hj, if_pos (by omega)]
          congr 1
          omega
        · rw [if_neg hj, if_neg (by omega)]

/-! ### Construction specs -/

theorem SafeBuffer.new_spec (uninit : Nat → Int) (h : Heap) (len : Nat)
    (h0 : len ≠ 0) (hl : 4 * len ≤ ISIZE_MAX) :
    ∃ h', SafeBuffer.new uninit h len = some (⟨h.next, len⟩, h') ∧
      h'.lookup h.next = some (List.replicate len 0) ∧
      h'.next = h.next + 1 ∧
      h'.blocks.map Prod.fst = h.next :: h.blocks.map Prod.fst ∧
      (∀ a', a' ≠ h.next → h'.lookup a' = h.lookup a') := by
  obtain ⟨h', hm, hlk, hnext, hfst, hother⟩ :=
    mid_level_alloc_zeroed_spec uninit h len h0 hl
  refine ⟨h', ?_, hlk, hnext, hfst, hother⟩
  simp only [SafeBuffer.new, if_neg h0, hm]
  rfl

theorem SafeBuffer.new_eq_none_iff (uninit : Nat → Int) (h : Heap) (len : Nat) :
    SafeBuffer.new uninit h len = none ↔ (len = 0 ∨ 4 * len > ISIZE_MAX) := by
  constructor
  · intro hn
    by_contra hcon
    push_neg at hcon
    obtain ⟨h', hm, _⟩ :=
      SafeBuffer.new_spec uninit h len hcon.1 hcon.2
    rw [hm] at hn
    cases hn
  · intro hcase
    by_cases h0 : len = 0
    · simp [SafeBuffer.new, h0]
    · have hl : 4 * len > ISIZE_MAX := hcase.resolve_left h0
      simp [SafeBuffer.new, mid_level_alloc_zeroed, raw_alloc, h0, hl]

/-! ### Well-formedness preservation -/

theorem Heap.WF_of_eq (h h' : Heap) (hn : h'.next = h.next)
    (hf : h'.blocks.map Prod.fst = h.blocks.map Prod.fst) (hwf : h.WF) :
    h'.WF := by
  constructor
  · intro k hk
    rw [hf] at hk
    rw [hn]
    exact hwf.1 k hk
  · rw [hf]
    exact hwf.2

theorem SafeBuffer.new_WF (uninit : Nat → Int) (h : Heap) (len : Nat)
    (h0 : len ≠ 0) (hl : 4 * len ≤ ISIZE_MAX) (hwf : h.WF) :
    ∀ b h', SafeBuffer.new uninit h len = some (b, h') → h'.WF := by
  intro b h' hn
  obtain ⟨h2, hm, hlk, hnext, hfst, hother⟩ :=
    SafeBuffer.new_spec uninit h len h0 hl
  rw [hm] at hn
  injection hn with hn1
  injection hn1 with hb hh
  subst hh
  constructor
  · intro k hk
    rw [hfst] at hk
    rw [hnext]
    rcases List.mem_cons.mp hk with hk1 | hk2
    · omega
    · have := hwf.1 k hk2
      omega
  · rw [hfst]
    refine List.nodup_cons.mpr ⟨?_, hwf.2⟩
    intro hmem
    have := hwf.1 _ hmem
    omega

/-! ### One safe API call never fails and preserves the invariant -/

theorem SafeBuffer.step_spec (h : Heap) (b : SafeBuffer) (op : BufOp)
    (hv : b.Valid h) (hlen : b.len < USIZE_MAX) :
    ∃ h', b.step h op = some h' ∧ b.Valid h' ∧ h'.next = h.next ∧
      h'.blocks.map Prod.fst = h.blocks.map Prod.fst := by
  cases op with
  | get i =>
    by_cases hi : i ≥ b.len
    · exact ⟨h, by simp [SafeBuffer.step, SafeBuffer.get, hi], hv, rfl, rfl⟩
    · obtain ⟨c, hc, hlenc⟩ := hv
      have hlt : i < c.length := by omega
      have hr := unchecked_read_spec h b.ptr i c hc hlt
      exact ⟨h, by simp [SafeBuffer.step, SafeBuffer.get, hi, hr],
        ⟨c, hc, hlenc⟩, rfl, rfl⟩
  | set i v =>
    by_cases hi : i ≥ b.len
    · exact ⟨h, by simp [SafeBuffer.step, SafeBuffer.set, hi], hv, rfl, rfl⟩
    · obtain ⟨c, hc, hlenc⟩ := hv
      have hlt : i < c.length := by omega
      have hw := unchecked_write_spec h b.ptr i v c hc hlt
      refine ⟨h.update b.ptr (c.set i v), ?_, ?_, rfl, ?_⟩
      · simp [SafeBuffer.step, SafeBuffer.set, hi, hw]
      · exact ⟨c.set i v, Heap.lookup_update_self h b.ptr _ c hc, by
          rw [List.length_set]; exact hlenc⟩
      · exact blocksSet_map_fst _ _ _
  | get_slice s cnt =>
    by_cases hs : satAdd s cnt > b.len
    · exact ⟨h, by simp [SafeBuffer.step, SafeBuffer.get_slice, hs], hv, rfl, rfl⟩
    · obtain ⟨c, hc, hlenc⟩ := hv
      have hsum : s + cnt ≤ b.len := by
        have hle := Nat.not_lt.mp hs
        by_cases h2 : s + cnt ≤ USIZE_MAX
        · rwa [satAdd, min_eq_left h2] at hle
        · rw [satAdd, min_eq_right (le_of_not_le h2)] at hle
          omega
      obtain ⟨l, hl, _, _⟩ := readRange_spec h b.ptr c hc cnt s (by omega)
      exact ⟨h, by simp [SafeBuffer.step, SafeBuffer.get_slice, hs, hl],
        ⟨c, hc, hlenc⟩, rfl, rfl⟩

/-! ### Runs of safe API calls -/

theorem SafeBuffer.run_spec (b : SafeBuffer) (hlen : b.len < USIZE_MAX) :
    ∀ (ops : List BufOp) (h : Heap), b.Valid h →
    ∃ h', b.run h ops = some h' ∧ b.Valid h' ∧ h'.next = h.next ∧
      h'.blocks.map Prod.fst = h.blocks.map Prod.fst := by
  intro ops
  induction ops with
  | nil => exact fun h hv => ⟨h, rfl, hv, rfl, rfl⟩
  | cons op rest ih =>
    intro h hv
    obtain ⟨h1, hstep, hv1, hn1, hf1⟩ := SafeBuffer.step_spec h b op hv hlen
    obtain ⟨h2, hrun, hv2, hn2, hf2⟩ := ih h1 hv1
    refine ⟨h2, ?_, hv2, by rw [hn2, hn1], by rw [hf2, hf1]⟩
    show (match b.step h op with
      | none => none
      | some h' => b.run h' rest) = some h2
    rw [hstep]
    exact hrun

/-! ### Destruction -/

theorem SafeBuffer.drop_spec (h : Heap) (b : SafeBuffer)
    (hv : b.Valid h) (hwf : h.WF) (hl : 4 * b.len ≤ ISIZE_MAX) :
    ∃ h', b.drop h = some h' ∧ h'.lookup b.ptr = none ∧ h'.next = h.next := by
  obtain ⟨c, hc, hlenc⟩ := hv
  refine ⟨⟨h.next, blocksRemove h.blocks b.ptr⟩, ?_, ?_, rfl⟩
  · simp [SafeBuffer.drop, unchecked_free, raw_dealloc, Nat.not_lt.mpr hl, hc, hlenc]
  · exact blocksGet_remove_self h.blocks b.ptr hwf.2

theorem drop_dead (h : Heap) (b : SafeBuffer)
    (hdead : h.lookup b.ptr = none) : SafeBuffer.drop h b = none := by
  by_cases hl : 4 * b.len > ISIZE_MAX
  · simp [SafeBuffer.drop, unchecked_free, raw_dealloc, hl]
  · simp [SafeBuffer.drop, unchecked_free, raw_dealloc, hl, hdead]

theorem unchecked_write_dead (h : Heap) (a : Nat) (off : Nat) (v : Int)
    (hdead : h.lookup a = none) : unchecked_write h a off v = none := by
  simp [unchecked_write, hdead]

/-! ## Claims -/

/-- C1: for every `SafeBuffer` and every `index ≥ len`, `get(index)` returns
`None` and `set(index, v)` returns the out-of-range error, whatever the
buffer's element contents (no hypothesis on the heap is needed: both
operations return before touching memory); the outer `some` states that
neither operation panics or exhibits undefined behaviour. -/
theorem c1_oob_get_none_set_error (h : Heap) (b : SafeBuffer) (index : Nat)
    (v : Int) (hidx : b.len ≤ index) :
    SafeBuffer.get h b index = some none ∧
    SafeBuffer.set h b index v = some (Except.error "Index out of bounds", h) := by
  constructor
  · rw [SafeBuffer.get, if_pos hidx]
  · rw [SafeBuffer.set, if_pos hidx]

/-- C1 witness: a 3-element buffer, index 5. -/
theorem c1_witness :
    SafeBuffer.get ⟨1, [(0, [10, 20, 30])]⟩ ⟨0, 3⟩ 5 = some none ∧
    SafeBuffer.set ⟨1, [(0, [10, 20, 30])]⟩ ⟨0, 3⟩ 5 7 =
      some (Except.error "Index out of bounds", ⟨1, [(0, [10, 20, 30])]⟩) :=
  c1_oob_get_none_set_error ⟨1, [(0, [10, 20, 30])]⟩ ⟨0, 3⟩ 5 7 (by decide)

/-- C2: on a buffer satisfying the documented safety invariant, for every
`index < len` and value `v`, `set(index, v)` succeeds, a following
`get(index)` returns `v`, and `get(j)` for every other `j < len` is
unchanged. -/
theorem c2_set_then_get (h : Heap) (b : SafeBuffer) (index : Nat) (v : Int)
    (hv : b.Valid h) (hidx : index < b.len) :
    ∃ h', SafeBuffer.set h b index v = some (Except.ok (), h') ∧
      SafeBuffer.get h' b index = some (some v) ∧
      ∀ j, j < b.len → j ≠ index →
        SafeBuffer.get h' b j = SafeBuffer.get h b j := by
  obtain ⟨c, hc, hlenc⟩ := hv
  have hlt : index < c.length := by omega
  have hw := unchecked_write_spec h b.ptr index v c hc hlt
  have hlk : (h.update b.ptr (c.set index v)).lookup b.ptr = some (c.set index v) :=
    Heap.lookup_update_self h b.ptr _ c hc
  refine ⟨h.update b.ptr (c.set index v), ?_, ?_, ?_⟩
  · rw [SafeBuffer.set, if_neg (Nat.not_le.mpr hidx), hw]
    rfl
  · rw [SafeBuffer.get, if_neg (Nat.not_le.mpr hidx)]
    simp only [unchecked_read, hlk]
    rw [List.get?_set_eq_of_lt v hlt]
    rfl
  · intro j hj hne
    rw [SafeBuffer.get, SafeBuffer.get, if_neg (Nat.not_le.mpr hj),
      if_neg (Nat.not_le.mpr hj)]
    simp only [unchecked_read, hlk, hc]
    rw [List.get?_set_ne v c (fun hh => hne hh.symm)]

/-- C2 witness: a valid 3-element buffer, writing 77 at index 1. -/
theorem c2_witness :
    ∃ h', SafeBuffer.set ⟨1, [(0, [10, 20, 30])]⟩ ⟨0, 3⟩ 1 77 =
        some (Except.ok (), h') ∧
      SafeBuffer.get h' ⟨0, 3⟩ 1 = some (some 77) ∧
      ∀ j, j < (⟨0, 3⟩ : SafeBuffer).len → j ≠ 1 →
        SafeBuffer.get h' ⟨0, 3⟩ j = SafeBuffer.get ⟨1, [(0, [10, 20, 30])]⟩ ⟨0, 3⟩ j :=
  c2_set_then_get ⟨1, [(0, [10, 20, 30])]⟩ ⟨0, 3⟩ 1 77
    ⟨[10, 20, 30], rfl, rfl⟩ (by decide)

/-- C3: whenever `SafeBuffer::new(len)` returns a buffer, every element of
that buffer reads as zero through `get`, for every choice of the
uninitialized contents the raw allocator produced; no uninitialized value
is observable through the wrapper. -/
theorem c3_new_zero_initialized (uninit : Nat → Int) (h : Heap) (len : Nat)
    (b : SafeBuffer) (h' : Heap)
    (hn : SafeBuffer.new uninit h len = some (b, h')) :
    b.len = len ∧ ∀ i, i < len → SafeBuffer.get h' b i = some (some 0) := by
  have h0 : len ≠ 0 := by
    intro h0
    rw [(SafeBuffer.new_eq_none_iff uninit h len).mpr (Or.inl h0)] at hn
    cases hn
  have hl : 4 * len ≤ ISIZE_MAX := by
    by_contra hcon
    rw [(SafeBuffer.new_eq_none_iff uninit h len).mpr
      (Or.inr (Nat.not_le.mp hcon))] at hn
    cases hn
  obtain ⟨h2, hm, hlk, hnext, hfst, hother⟩ :=
    SafeBuffer.new_spec uninit h len h0 hl
  rw [hm] at hn
  injection hn with hn1
  injection hn1 with hb hh
  subst hh
  rw [← hb]
  refine ⟨rfl, ?_⟩
  intro i hi
  rw [SafeBuffer.get, if_neg (Nat.not_le.mpr hi)]
  simp only [unchecked_read, hlk]
  rw [replicate_get?, if_pos hi]
  rfl

/-- C3 witness: `new(2)` over the empty heap with uninitialized contents 37
yields a buffer reading zero at index 1. -/
theorem c3_witness :
    (⟨0, 2⟩ : SafeBuffer).len = 2 ∧
    SafeBuffer.get ⟨1, [(0, [0, 0])]⟩ ⟨0, 2⟩ 1 = some (some 0) :=
  ⟨(c3_new_zero_initialized (fun _ => 37) Heap.empty 2 ⟨0, 2⟩ ⟨1, [(0, [0, 0])]⟩
      (by decide)).1,
   (c3_new_zero_initialized (fun _ => 37) Heap.empty 2 ⟨0, 2⟩ ⟨1, [(0, [0, 0])]⟩
      (by decide)).2 1 (by decide)⟩

/-- C4: `get_slice(start, count)` returns `None` whenever the mathematical
sum `start + count` exceeds `len`, including when it exceeds `usize::MAX`:
the saturating addition caps an overflowing sum at `usize::MAX`, which
still compares as invalid for every buffer whose length is below
`usize::MAX` (true of every constructible buffer, since construction
requires `4 * len ≤ isize::MAX`). -/
theorem c4_get_slice_overflow_safe (h : Heap) (b : SafeBuffer)
    (start count : Nat) (hlen : b.len < USIZE_MAX)
    (hsum : b.len < start + count) :
    SafeBuffer.get_slice h b start count = some none := by
  have hcond : satAdd start count > b.len := by
    rw [satAdd]
    rcases le_or_lt (start + count) USIZE_MAX with h1 | h1
    · rw [min_eq_left h1]
      exact hsum
    · rw [min_eq_right h1.le]
      exact hlen
  rw [SafeBuffer.get_slice, if_pos hcond]

/-- C4 witness: a 3-element buffer with `start = 2^64 - 1`, `count = 2`
(the sum wraps past the representable range). -/
theorem c4_witness :
    (⟨0, 3⟩ : SafeBuffer).len < USIZE_MAX ∧
    SafeBuffer.get_slice ⟨1, [(0, [1, 2, 3])]⟩ ⟨0, 3⟩ (2 ^ 64 - 1) 2 = some none :=
  ⟨by decide,
   c4_get_slice_overflow_safe ⟨1, [(0, [1, 2, 3])]⟩ ⟨0, 3⟩ (2 ^ 64 - 1) 2
     (by decide) (by decide)⟩

/-- C5: on a buffer satisfying the documented safety invariant, for every
range with `start + count ≤ len`, `get_slice(start, count)` returns a view
of length `count` whose `j`-th element is the buffer element at index
`start + j`. -/
theorem c5_get_slice_view (h : Heap) (b : SafeBuffer) (start count : Nat)
    (hv : b.Valid h) (hsum : start + count ≤ b.len) :
    ∃ l, SafeBuffer.get_slice h b start count = some (some l) ∧
      l.length = count ∧
      ∀ j, j < count → ∃ v, l.get? j = some v ∧
        SafeBuffer.get h b (start + j) = some (some v) := by
  obtain ⟨c, hc, hlenc⟩ := hv
  obtain ⟨l, hl, hlen, hget⟩ := readRange_spec h b.ptr c hc count start (by omega)
  have hcond : ¬ (satAdd start count > b.len) := by
    rw [satAdd]
    exact Nat.not_lt.mpr (le_trans (min_le_left _ _) hsum)
  refine ⟨l, ?_, hlen, ?_⟩
  · rw [SafeBuffer.get_slice, if_neg hcond, hl]
    rfl
  · intro j hj
    have hjlt : start + j < c.length := by omega
    have hread := unchecked_read_spec h b.ptr (start + j) c hc hjlt
    refine ⟨c.get ⟨start + j, hjlt⟩, ?_, ?_⟩
    · rw [hget j, if_pos hj, List.get?_eq_get hjlt]
    · rw [SafeBuffer.get, if_neg (Nat.not_le.mpr (by omega)), hread]
      rfl

/-- C5 witness: the spec's concrete scenario, `get_slice(2, 6)` on a
10-element buffer. -/
theorem c5_witness :
    ∃ l, SafeBuffer.get_slice ⟨1, [(0, [0, 1, 2, 3, 4, 5, 6, 7, 8, 9])]⟩
        ⟨0, 10⟩ 2 6 = some (some l) ∧
      l.length = 6 ∧
      ∀ j, j < 6 → ∃ v, l.get? j = some v ∧
        SafeBuffer.get ⟨1, [(0, [0, 1, 2, 3, 4, 5, 6, 7, 8, 9])]⟩ ⟨0, 10⟩ (2 + j) =
          some (some v) :=
  c5_get_slice_view ⟨1, [(0, [0, 1, 2, 3, 4, 5, 6, 7, 8, 9])]⟩ ⟨0, 10⟩ 2 6
    ⟨[0, 1, 2, 3, 4, 5, 6, 7, 8, 9], rfl, rfl⟩ (by decide)

/-- C6: `first_half` has length `len / 2`, `last_half` has length
`len - len / 2`, the two lengths always sum to `len`, and for odd `len`
the first half is the strictly smaller half. -/
theorem c6_halves_partition (c : DataContainer) :
    (c.first_half).length = c.len / 2 ∧
    (c.last_half).length = c.len - c.len / 2 ∧
    (c.first_half).length + (c.last_half).length = c.len ∧
    (c.len % 2 = 1 → (c.first_half).length < (c.last_half).length) := by
  have h1 : (c.first_half).length = c.len / 2 := by
    rw [DataContainer.first_half, DataContainer.len, List.length_take]
    omega
  have h2 : (c.last_half).length = c.len - c.len / 2 := by
    rw [DataContainer.last_half, DataContainer.len, List.length_drop]
  refine ⟨h1, h2, ?_, ?_⟩
  · rw [h1, h2]
    omega
  · intro hodd
    rw [h1, h2]
    omega

/-- C6 witness: a 3-element container splits into halves of lengths 1 and
2, and 3 is odd so the first half is strictly smaller. -/
theorem c6_witness :
    (DataContainer.first_half ⟨[1, 2, 3]⟩).length +
      (DataContainer.last_half ⟨[1, 2, 3]⟩).length = DataContainer.len ⟨[1, 2, 3]⟩ ∧
    (DataContainer.first_half ⟨[1, 2, 3]⟩).length <
      (DataContainer.last_half ⟨[1, 2, 3]⟩).length :=
  ⟨(c6_halves_partition ⟨[1, 2, 3]⟩).2.2.1,
   (c6_halves_partition ⟨[1, 2, 3]⟩).2.2.2 (by decide)⟩

/-- C7 counterexample: the claim "new(len) fails fatally exactly when
len == 0" is false: `len = 2^62` is positive, yet construction aborts,
because `raw_alloc` computes `Layout::array::<i32>(2^62)`, whose byte size
`4 * 2^62` exceeds `isize::MAX`, and the source's
`.expect("Invalid layout")` panics. -/
theorem c7_counterexample :
    0 < 2 ^ 62 ∧ SafeBuffer.new (fun _ => 0) Heap.empty (2 ^ 62) = none := by
  constructor
  · decide
  · rw [SafeBuffer.new_eq_none_iff]
    right
    decide

/-- C7 amended: `SafeBuffer::new(len)` fails fatally exactly when
`len == 0` or the `i32` array layout for `len` elements is invalid
(`4 * len > isize::MAX`); whenever it returns a buffer, that buffer's
`len()` equals the requested length. -/
theorem c7_new_fails_iff (uninit : Nat → Int) (h : Heap) (len : Nat) :
    (SafeBuffer.new uninit h len = none ↔ len = 0 ∨ 4 * len > ISIZE_MAX) ∧
    (∀ b h', SafeBuffer.new uninit h len = some (b, h') → b.len = len) := by
  refine ⟨SafeBuffer.new_eq_none_iff uninit h len, ?_⟩
  intro b h' hn
  rw [SafeBuffer.new] at hn
  by_cases h0 : len = 0
  · rw [if_pos h0] at hn
    cases hn
  · rw [if_neg h0] at hn
    cases hm : mid_level_alloc_zeroed uninit h len with
    | none =>
      rw [hm] at hn
      cases hn
    | some p =>
      rw [hm] at hn
      injection hn with hn1
      injection hn1 with hb hh
      rw [← hb]

/-- C7 witness: `new(0)` fails; a buffer returned by `new(3)` has length 3. -/
theorem c7_witness :
    SafeBuffer.new (fun _ => 5) Heap.empty 0 = none ∧
    (⟨0, 3⟩ : SafeBuffer).len = 3 :=
  ⟨(c7_new_fails_iff (fun _ => 5) Heap.empty 0).1.mpr (Or.inl rfl),
   (c7_new_fails_iff (fun _ => 5) Heap.empty 3).2 ⟨0, 3⟩ ⟨1, [(0, [0, 0, 0])]⟩
     (by decide)⟩

/-- C8: a `set` with `index ≥ len` returns the out-of-range error and the
heap it returns is the one it was given, so every element readable through
`get` afterwards equals its value before the call (error atomicity). -/
theorem c8_failed_set_unchanged (h : Heap) (b : SafeBuffer) (index : Nat)
    (v : Int) (hidx : b.len ≤ index) :
    ∀ r h', SafeBuffer.set h b index v = some (r, h') →
      r = Except.error "Index out of bounds" ∧ h' = h ∧
      ∀ j, SafeBuffer.get h' b j = SafeBuffer.get h b j := by
  intro r h' hs
  rw [SafeBuffer.set, if_pos hidx] at hs
  injection hs with hs1
  injection hs1 with hr hh
  refine ⟨hr.symm, hh.symm, ?_⟩
  intro j
  rw [← hh]

/-- C8 witness: failed `set` at index 9 of a 3-element buffer mutates
nothing. -/
theorem c8_witness :
    Except.error "Index out of bounds" =
      (Except.error "Index out of bounds" : Except String Unit) ∧
    (⟨1, [(0, [10, 20, 30])]⟩ : Heap) = ⟨1, [(0, [10, 20, 30])]⟩ ∧
    ∀ j, SafeBuffer.get ⟨1, [(0, [10, 20, 30])]⟩ ⟨0, 3⟩ j =
      SafeBuffer.get ⟨1, [(0, [10, 20, 30])]⟩ ⟨0, 3⟩ j :=
  c8_failed_set_unchanged ⟨1, [(0, [10, 20, 30])]⟩ ⟨0, 3⟩ 9 7 (by decide)
    (Except.error "Index out of bounds") ⟨1, [(0, [10, 20, 30])]⟩ rfl

/-- C10: whenever the public raw-layer `unsafe_alloc(count)` returns, every
element of the fresh allocation reads as zero, for every choice of the
uninitialized contents the underlying `raw_alloc` produced: the loop in
`unsafe_alloc` zero-initializes the region before returning. -/
theorem c10_unchecked_alloc_zeroed (uninit : Nat → Int) (h : Heap)
    (count : Nat) (a : Nat) (h' : Heap)
    (hn : unchecked_alloc uninit h count = some (a, h')) :
    ∀ off, off < count → unchecked_read h' a off = some 0 := by
  by_cases hl : 4 * count ≤ ISIZE_MAX
  · obtain ⟨h2, hm, hlk, hnext, hother⟩ := unchecked_alloc_spec uninit h count hl
    rw [hm] at hn
    injection hn with hn1
    injection hn1 with ha hh
    subst hh
    subst ha
    intro off hoff
    simp only [unchecked_read, hlk]
    rw [replicate_get?, if_pos hoff]
  · exfalso
    have hnone : unchecked_alloc uninit h count = none := by
      rw [unchecked_alloc, raw_alloc, if_pos (Nat.not_le.mp hl)]
    rw [hnone] at hn
    cases hn

/-- C10 witness: `unsafe_alloc(2)` with uninitialized contents 42 reads
zero at offset 1. -/
theorem c10_witness :
    unchecked_read ⟨1, [(0, [0, 0])]⟩ 0 1 = some 0 :=
  c10_unchecked_alloc_zeroed (fun _ => 42) Heap.empty 2 0 ⟨1, [(0, [0, 0])]⟩
    (by decide) 1 (by decide)

/-- C9: lifecycle safety. For any well-formed heap, whenever
`SafeBuffer::new(len)` returns a buffer, then after ANY sequence of safe
API calls (`get` / `set` / `get_slice`) the `Drop` implementation frees
the owned allocation using exactly the element count recorded at
construction (`raw_dealloc` succeeds, and it demands the exact count), the
allocation is gone afterwards, and from that point a second destruction as
well as every raw read or write against the former allocation is
undefined behaviour (`none`) — so no operation against it is possible
once the buffer's lifetime has ended. -/
theorem c9_drop_exactly_once (uninit : Nat → Int) (h0 : Heap) (len : Nat)
    (hwf : h0.WF) :
    ∀ b h1, SafeBuffer.new uninit h0 len = some (b, h1) →
    ∀ ops : List BufOp,
    ∃ h2 h3, SafeBuffer.run h1 b ops = some h2 ∧
      SafeBuffer.drop h2 b = some h3 ∧
      b.len = len ∧
      h3.lookup b.ptr = none ∧
      SafeBuffer.drop h3 b = none ∧
      (∀ off, unchecked_read h3 b.ptr off = none) ∧
      (∀ off v, unchecked_write h3 b.ptr off v = none) := by
  intro b h1 hn ops
  have hlen0 : len ≠ 0 := by
    intro hz
    rw [(SafeBuffer.new_eq_none_iff uninit h0 len).mpr (Or.inl hz)] at hn
    cases hn
  have hl : 4 * len ≤ ISIZE_MAX := by
    by_contra hcon
    rw [(SafeBuffer.new_eq_none_iff uninit h0 len).mpr
      (Or.inr (Nat.not_le.mp hcon))] at hn
    cases hn
  obtain ⟨h1', hm, hlk, hnext, hfst, hother⟩ :=
    SafeBuffer.new_spec uninit h0 len hlen0 hl
  rw [hm] at hn
  injection hn with hn1
  injection hn1 with hb hh
  subst hh
  subst hb
  have hwf1 : h1'.WF :=
    SafeBuffer.new_WF uninit h0 len hlen0 hl hwf ⟨h0.next, len⟩ h1' hm
  have hv1 : SafeBuffer.Valid h1' ⟨h0.next, len⟩ :=
    ⟨List.replicate len 0, hlk, List.length_replicate len 0⟩
  have hlenU : (⟨h0.next, len⟩ : SafeBuffer).len < USIZE_MAX := by
    show len < USIZE_MAX
    rw [USIZE_MAX]
    rw [ISIZE_MAX] at hl
    omega
  obtain ⟨h2, hrun, hv2, hn2, hf2⟩ :=
    SafeBuffer.run_spec ⟨h0.next, len⟩ hlenU ops h1' hv1
  have hwf2 : h2.WF := Heap.WF_of_eq h1' h2 hn2 hf2 hwf1
  obtain ⟨h3, hdrop, hdead, hn3⟩ :=
    SafeBuffer.drop_spec h2 ⟨h0.next, len⟩ hv2 hwf2 hl
  exact ⟨h2, h3, hrun, hdrop, rfl, hdead,
    drop_dead h3 ⟨h0.next, len⟩ hdead,
    fun off => unchecked_read_dead h3 h0.next off hdead,
    fun off v => unchecked_write_dead h3 h0.next off v hdead⟩

/-- C9 witness: `new(1)` on the empty heap, one `set` and one `get`, then
destruction. -/
theorem c9_witness :
    ∃ h2 h3,
      SafeBuffer.run ⟨1, [(0, [0])]⟩ ⟨0, 1⟩ [BufOp.set 0 5, BufOp.get 0] = some h2 ∧
      SafeBuffer.drop h2 ⟨0, 1⟩ = some h3 ∧
      (⟨0, 1⟩ : SafeBuffer).len = 1 ∧
      h3.lookup (⟨0, 1⟩ : SafeBuffer).ptr = none ∧
      SafeBuffer.drop h3 ⟨0, 1⟩ = none ∧
      (∀ off, unchecked_read h3 (⟨0, 1⟩ : SafeBuffer).ptr off = none) ∧
      (∀ off v, unchecked_write h3 (⟨0, 1⟩ : SafeBuffer).ptr off v = none) :=
  c9_drop_exactly_once (fun _ => 9) Heap.empty 1
    ⟨by simp [Heap.empty], by simp [Heap.empty]⟩
    ⟨0, 1⟩ ⟨1, [(0, [0])]⟩ (by decide) [BufOp.set 0 5, BufOp.get 0]
